import Mathlib

/-!
Shallow embedding of the command dispatch core of the Python-Hikari-SelfBot
repository: the command registry (src/services/command_registry.py), the
per-command execution pipeline (src/core/base_command.py), the metrics
aggregator (src/core/types.py, src/services/bot_stats.py) and the message
dispatcher (src/services/discord_service.py).

Python dictionaries are modelled as insertion-ordered association lists with
string keys; Python wall-clock floats as rationals; a Python exception that
escapes a call as the error branch of Except / an Option-valued error slot.
-/

namespace SelfBot

/- The Batteries rational arithmetic is marked irreducible, which blocks
kernel evaluation of concrete pipeline runs; restore the default
reducibility for this development so that `decide` can evaluate them. -/
attribute [local semireducible] Rat.add Rat.sub Rat.mul Rat.inv

/-! ### Python dict model -/

/-- Lookup in an insertion-ordered association list (Python `d[k]` / `d.get(k)`). -/
def dictGet? {α : Type} : List (String × α) → String → Option α
  | [], _ => none
  | (k₁, v₁) :: rest, k => if k₁ = k then some v₁ else dictGet? rest k

/-- Python `d[k] = v`: update in place when the key exists, else append. -/
def dictSet {α : Type} : List (String × α) → String → α → List (String × α)
  | [], k, v => [(k, v)]
  | (k₁, v₁) :: rest, k, v =>
      if k₁ = k then (k, v) :: rest else (k₁, v₁) :: dictSet rest k v

/-- Python `del d[k]` (no-op when the key is absent, as used after an `in` check). -/
def dictDel {α : Type} : List (String × α) → String → List (String × α)
  | [], _ => []
  | (k₁, v₁) :: rest, k => if k₁ = k then rest else (k₁, v₁) :: dictDel rest k

/-- The key sequence of a dict. -/
def dictKeys {α : Type} (m : List (String × α)) : List String := m.map Prod.fst

/-! ### Python string primitives -/

/-- Python `s.startswith(pre)`. -/
def pyStartsWith (s pre : String) : Bool := pre.data.isPrefixOf s.data

/-- Python `s.strip()`: drop whitespace from both ends. -/
def pyStrip (s : String) : String :=
  ⟨((s.data.dropWhile Char.isWhitespace).reverse.dropWhile Char.isWhitespace).reverse⟩

/-! ### Data model (src/core/types.py) -/

/-- Configuration of a command (dataclass `CommandConfig`).  `cooldown` is in
milliseconds; `none` models Python `None`. -/
structure CommandConfig where
  enabled : Bool := true
  cooldown : Option Int := none
  permissions : List String := []
  aliases : List String := []
  deriving DecidableEq

/-- An `ICommand` implementation as the registry and dispatcher see it: the
`name`, `description` and `trigger` attributes, whether a callable `execute`
attribute exists (`hasExecute`), and the `CommandConfig` returned by
`get_config()`.  The empty string models a missing/falsy attribute. -/
structure Command where
  name : String
  description : String
  trigger : String
  hasExecute : Bool := true
  config : CommandConfig := {}
  deriving DecidableEq

/-- Result of one command execution (dataclass `CommandExecutionResult`).
`metadata` values are strings (the pipeline only ever stores strings there);
the dataclass default plus `__post_init__` make `metadata` equal `some []`
at construction, but a caller mutating the field afterwards can make it
`none`, which the pipeline checks for. -/
structure CommandExecutionResult where
  success : Bool
  response : Option String := none
  error : Option String := none
  latency : Option Rat := none
  response_time : Option Rat := none
  metadata : Option (List (String × String)) := some []
  deriving DecidableEq

/-! ### Exceptions (src/core/exceptions.py) -/

/-- The registry raises `ValidationError(message, field_name=, error_code=)`
and `CommandError(message, command_name=, error_code=)`; both carried here
with their distinguishing fields. -/
inductive RegError where
  | validationError (message fieldName errorCode : String)
  | commandError (message commandName errorCode : String)
  deriving DecidableEq

/-! ### Command registry (src/services/command_registry.py) -/

/-- The registry's `_stats` dictionary. -/
structure RegistryStats where
  total_registered : Nat := 0
  total_unregistered : Nat := 0
  registration_errors : Nat := 0
  deriving DecidableEq

/-- State of a `CommandRegistry`: `_commands` (trigger → command),
`_command_names` (name → command) and `_stats`. -/
structure CommandRegistry where
  commands : List (String × Command) := []
  command_names : List (String × Command) := []
  stats : RegistryStats := {}
  deriving DecidableEq

/-- The freshly initialized registry. -/
def registryInit : CommandRegistry := {}

/-- `CommandRegistry._validate_command`: returns the first failing check's
`ValidationError`, or `none` when the command definition is valid.  Checks
run in source order: name, description, trigger, callable execute, trigger
format. -/
def CommandRegistry._validate_command (command : Command) : Option RegError :=
  if command.name = "" then
    some (.validationError "Command must have a non-empty name" "name" "MISSING_NAME")
  else if command.description = "" then
    some (.validationError "Command must have a non-empty description" "description"
      "MISSING_DESCRIPTION")
  else if command.trigger = "" then
    some (.validationError "Command must have a non-empty trigger" "trigger"
      "MISSING_TRIGGER")
  else if ¬ command.hasExecute then
    some (.validationError "Command must have an executable execute method" "execute"
      "MISSING_EXECUTE_METHOD")
  else if ¬ pyStartsWith command.trigger "." then
    some (.validationError "Command trigger must start with a dot" "trigger"
      "INVALID_TRIGGER_FORMAT")
  else
    none

/-- The `CommandError` raised on a duplicate name bound to a different trigger. -/
def duplicateNameError (command existing : Command) : RegError :=
  .commandError
    ("Command name " ++ command.name ++ " already exists with different trigger "
      ++ existing.trigger)
    command.name "DUPLICATE_COMMAND_NAME"

/-- `CommandRegistry.register`.  The input is `Option Command` because Python
allows passing `None` (rejected first).  Returns the exception that escaped
the call (`some e`) or `none` on success, together with the registry state
after the call: validation failures occur before the locked `try` block and
leave the state untouched; the duplicate-name `CommandError` is raised inside
the `try`, so its `except` clause increments `registration_errors` before
re-raising; the success path overwrites both mappings and increments
`total_registered`. -/
def CommandRegistry.register (st : CommandRegistry) (command? : Option Command) :
    Option RegError × CommandRegistry :=
  match command? with
  | none => (some (.validationError "Command cannot be None" "command" "NULL_COMMAND"), st)
  | some command =>
    match CommandRegistry._validate_command command with
    | some e => (some e, st)
    | none =>
      match dictGet? st.command_names command.name with
      | some existing =>
        if existing.trigger ≠ command.trigger then
          (some (duplicateNameError command existing),
           { st with stats := { st.stats with
               registration_errors := st.stats.registration_errors + 1 } })
        else
          (none,
           { st with
             commands := dictSet st.commands command.trigger command,
             command_names := dictSet st.command_names command.name command,
             stats := { st.stats with
               total_registered := st.stats.total_registered + 1 } })
      | none =>
        (none,
         { st with
           commands := dictSet st.commands command.trigger command,
           command_names := dictSet st.command_names command.name command,
           stats := { st.stats with
             total_registered := st.stats.total_registered + 1 } })

/-- `CommandRegistry.unregister`: removes the command registered under
`trigger` from both mappings (the name entry only when present), returning
whether a removal happened. -/
def CommandRegistry.unregister (st : CommandRegistry) (trigger : String) :
    Bool × CommandRegistry :=
  if trigger = "" then (false, st)
  else
    match dictGet? st.commands trigger with
    | some command =>
      (true,
       { st with
         commands := dictDel st.commands trigger,
         command_names := dictDel st.command_names command.name,
         stats := { st.stats with
           total_unregistered := st.stats.total_unregistered + 1 } })
    | none => (false, st)

/-- One call in a registry history: a `register` or an `unregister`. -/
inductive RegOp where
  | reg (command? : Option Command)
  | unreg (trigger : String)

/-- The registry state reached by one call (the raised exception, if any,
propagates to the caller and does not affect the stored state). -/
def CommandRegistry.applyOp (st : CommandRegistry) : RegOp → CommandRegistry
  | .reg command? => (st.register command?).2
  | .unreg trigger => (st.unregister trigger).2

/-- The registry state after a sequence of register/unregister calls starting
from a fresh registry. -/
def CommandRegistry.runOps (ops : List RegOp) : CommandRegistry :=
  ops.foldl CommandRegistry.applyOp registryInit

/-- The two-mapping coherence property of a registry state: every command
stored in the trigger mapping is stored under its own trigger, and the name
mapping maps its name back to it. -/
def RegInvariant (st : CommandRegistry) : Prop :=
  ∀ k c, dictGet? st.commands k = some c →
    k = c.trigger ∧ dictGet? st.command_names c.name = some c

/-- Well-formedness of a registry state: both dicts have distinct keys and
the coherence property holds. -/
def RegWF (st : CommandRegistry) : Prop :=
  (dictKeys st.commands).Nodup ∧ (dictKeys st.command_names).Nodup ∧ RegInvariant st

/-! ### Execution pipeline (src/core/base_command.py) -/

/-- The author of a Discord message, reduced to the `id` the pipeline reads. -/
structure Author where
  id : Int
  deriving DecidableEq

/-- A Discord message as the pipeline reads it; `none` fields model Python
`None` attributes (the whole message being `None` is `Option Message`). -/
structure Message where
  author : Option Author := none
  content : Option String := none
  deriving DecidableEq

/-- A Python exception as the pipeline handler observes it: the class name
`type(error).__name__` and the `str(error)` rendering. -/
structure PyError where
  tyName : String
  msg : String
  deriving DecidableEq

/-- The `AttributeError` raised by an attribute access on `None` (the CPython
message additionally quotes the attribute name; the quoting is immaterial
here). -/
def attrErrNone (attr : String) : PyError :=
  { tyName := "AttributeError",
    msg := "NoneType object has no attribute " ++ attr }

/-- `str(...)` and class name of the `ValidationError` raised by message
validation; `DiscordSelfBotError.__str__` prefixes the bracketed error code. -/
def invalidMessageError : PyError :=
  { tyName := "ValidationError",
    msg := "[INVALID_MESSAGE] Invalid message format or content" }

/-- Python truthiness of `config.cooldown` (`None` and `0` are falsy). -/
def cooldownTruthy (cfg : CommandConfig) : Bool :=
  match cfg.cooldown with
  | none => false
  | some c => decide (c ≠ 0)

/-- The configured cooldown in milliseconds, as the arithmetic reads it. -/
def cooldownMs (cfg : CommandConfig) : Rat :=
  match cfg.cooldown with
  | none => 0
  | some c => (c : Rat)

/-- Shallow model of Python `"%.1f" % r` for a non-negative rational: one
decimal digit, rounding half up. -/
def fmt1 (r : Rat) : String :=
  let q : Int := (r * 10 + 1 / 2).floor
  toString (q / 10) ++ "." ++ toString (q % 10)

instance {ε α : Type} [DecidableEq ε] [DecidableEq α] : DecidableEq (Except ε α) :=
  fun a b =>
  match a, b with
  | .error e₁, .error e₂ =>
      if h : e₁ = e₂ then isTrue (by rw [h]) else isFalse (by intro hh; cases hh; exact h rfl)
  | .ok x, .ok y =>
      if h : x = y then isTrue (by rw [h]) else isFalse (by intro hh; cases hh; exact h rfl)
  | .error e₁, .ok y => isFalse (by intro hh; cases hh)
  | .ok x, .error e₂ => isFalse (by intro hh; cases hh)

/-- `BaseCommand._check_cooldown`: `True` when the command may run.  `now` is
the `time.time()` sample taken inside the check; an unknown user defaults to
a last-execution timestamp of `0`. -/
def BaseCommand._check_cooldown (cfg : CommandConfig) (ledger : List (String × Rat))
    (user_id : Int) (now : Rat) : Bool :=
  if cooldownTruthy cfg then
    decide (now - ((dictGet? ledger (toString user_id)).getD 0) ≥ cooldownMs cfg / 1000)
  else true

/-- `BaseCommand._get_cooldown_remaining`: remaining seconds, floored at 0. -/
def BaseCommand._get_cooldown_remaining (cfg : CommandConfig)
    (ledger : List (String × Rat)) (user_id : Int) (now : Rat) : Rat :=
  if cooldownTruthy cfg then
    max 0 (cooldownMs cfg / 1000 - (now - ((dictGet? ledger (toString user_id)).getD 0)))
  else 0

/-- `BaseCommand._update_cooldown`: records `now` for the user, but only when
`config.cooldown` is truthy. -/
def BaseCommand._update_cooldown (cfg : CommandConfig) (ledger : List (String × Rat))
    (user_id : Int) (now : Rat) : List (String × Rat) :=
  if cooldownTruthy cfg then dictSet ledger (toString user_id) now else ledger

/-- `BaseCommand._validate_message`: message, author and content must be
present and truthy and the stripped content must start with the trigger. -/
def BaseCommand._validate_message (trigger : String) : Option Message → Bool
  | none => false
  | some msg =>
    match msg.author with
    | none => false
    | some _ =>
      match msg.content with
      | none => false
      | some content =>
        if content = "" then false
        else pyStartsWith (pyStrip content) trigger

/-- The error text of the cooldown short-circuit result. -/
def cooldownErrMsg (remaining : Rat) : String :=
  "Command on cooldown. Try again in " ++ fmt1 remaining ++ "s"

/-- The pipeline's `except` handler.  `_handle_error` swallows every failure
of its own and cannot alter the returned value; afterwards the failure result
is built, and building its metadata evaluates `str(message.author.id)`, which
itself raises `AttributeError` when the message or its author is absent —
that second exception escapes `execute`. -/
def BaseCommand.exceptResult (name : String) (msg? : Option Message) (e : PyError)
    (response_time : Rat) : Except PyError CommandExecutionResult :=
  match msg? with
  | none => .error (attrErrNone "author")
  | some msg =>
    match msg.author with
    | none => .error (attrErrNone "id")
    | some author =>
      .ok { success := false, error := some e.msg,
            response_time := some response_time,
            metadata := some [("command_name", name), ("user_id", toString author.id),
                              ("error_type", e.tyName)] }

/-- The result-enrichment step of the pipeline (lines 137-145 of
base_command.py): fill `response_time` with `rtFill` when the inner result
left it unset, then store `command_name` and `user_id` into its metadata
(creating the dict when the field is `None`). -/
def BaseCommand.enrichResult (name : String) (uid : Int)
    (result : CommandExecutionResult) (rtFill : Rat) : CommandExecutionResult :=
  let result₂ :=
    match result.response_time with
    | none => { result with response_time := some rtFill }
    | some _ => result
  { result₂ with
    metadata := some (dictSet (dictSet (result₂.metadata.getD []) "command_name" name)
      "user_id" (toString uid)) }

/-- `BaseCommand.execute`.  `tm n` is the value returned by the n-th
`time.time()` call of this invocation (call 0 is `start_time`); `inner` is
the outcome of `await self.execute_command(message)` (`error e` = it raised
`e`).  The result is the exception escaping `execute`, or the returned
`CommandExecutionResult` paired with the `_last_execution` ledger after the
call.  When the command is enabled, `message.author.id` is evaluated at the
`_check_cooldown` call site, so an absent message or author raises there. -/
def BaseCommand.execute (cfg : CommandConfig) (name trigger : String)
    (ledger : List (String × Rat)) (msg? : Option Message)
    (inner : Except PyError CommandExecutionResult) (tm : Nat → Rat) :
    Except PyError (CommandExecutionResult × List (String × Rat)) :=
  if ¬ cfg.enabled then
    .ok ({ success := false, error := some "Command is currently disabled",
           response_time := some ((tm 1 - tm 0) * 1000) }, ledger)
  else
    match msg? with
    | none => .error (attrErrNone "author")
    | some msg =>
      match msg.author with
      | none => .error (attrErrNone "id")
      | some author =>
        let uid := author.id
        let afterCheck : Nat := if cooldownTruthy cfg then 2 else 1
        if ¬ BaseCommand._check_cooldown cfg ledger uid (tm 1) then
          .ok ({ success := false,
                 error := some (cooldownErrMsg
                   (BaseCommand._get_cooldown_remaining cfg ledger uid (tm 2))),
                 response_time := some ((tm 3 - tm 0) * 1000) }, ledger)
        else if ¬ BaseCommand._validate_message trigger msg? then
          (BaseCommand.exceptResult name msg? invalidMessageError
            ((tm afterCheck - tm 0) * 1000)).map (fun r => (r, ledger))
        else
          match inner with
          | .error e =>
            (BaseCommand.exceptResult name msg? e ((tm afterCheck - tm 0) * 1000)).map
              (fun r => (r, ledger))
          | .ok result =>
            let ledger₂ := BaseCommand._update_cooldown cfg ledger uid (tm afterCheck)
            let afterUpd : Nat := if cooldownTruthy cfg then 3 else 1
            .ok (BaseCommand.enrichResult name uid result ((tm afterUpd - tm 0) * 1000),
                 ledger₂)

/-! ### Dispatcher (src/services/discord_service.py) -/

/-- `DiscordService._find_matching_command`: scan the registered commands in
order; on a trigger prefix match return the command when enabled, otherwise
log and keep scanning. -/
def DiscordService._find_matching_command (content : String) :
    List Command → Option Command
  | [] => none
  | command :: rest =>
    if pyStartsWith content command.trigger then
      if command.config.enabled then some command
      else DiscordService._find_matching_command content rest
    else DiscordService._find_matching_command content rest

/-! ### Metrics (src/core/types.py, src/services/bot_stats.py) -/

/-- Per-command running aggregate (dataclass `CommandMetrics`).  The
`min_execution_time` initializer is `float(inf)`, modelled by `none`;
`last_executed` carries the `datetime.now()` sample as a rational tick. -/
structure CommandMetrics where
  command_name : String
  execution_count : Nat := 0
  total_execution_time : Rat := 0
  average_execution_time : Rat := 0
  min_execution_time : Option Rat := none
  max_execution_time : Rat := 0
  success_count : Nat := 0
  error_count : Nat := 0
  last_executed : Option Rat := none
  deriving DecidableEq

/-- `min` against the running minimum whose initializer is `float(inf)`. -/
def minInf (m : Option Rat) (x : Rat) : Rat :=
  match m with
  | none => x
  | some v => min v x

/-- `CommandMetrics.update_metrics` (the `now` argument models the
`datetime.now()` call). -/
def CommandMetrics.update_metrics (m : CommandMetrics) (execution_time : Rat)
    (success : Bool) (now : Rat) : CommandMetrics :=
  { m with
    execution_count := m.execution_count + 1,
    total_execution_time := m.total_execution_time + execution_time,
    average_execution_time :=
      (m.total_execution_time + execution_time) / ((m.execution_count : Rat) + 1),
    min_execution_time := some (minInf m.min_execution_time execution_time),
    max_execution_time := max m.max_execution_time execution_time,
    last_executed := some now,
    success_count := if success then m.success_count + 1 else m.success_count,
    error_count := if success then m.error_count else m.error_count + 1 }

/-- `BotStatsService.record_command_execution` acting on the
`command_metrics` dictionary: create the aggregate on first sight, then
update it. -/
def BotStatsService.record_command_execution
    (metrics : List (String × CommandMetrics)) (command_name : String)
    (execution_time : Rat) (success : Bool) (now : Rat) :
    List (String × CommandMetrics) :=
  let m := (dictGet? metrics command_name).getD { command_name := command_name }
  dictSet metrics command_name (m.update_metrics execution_time success now)

/-- Folding `update_metrics` over a sequence of (duration, success, now)
records for one aggregate. -/
def runUpdates (m : CommandMetrics) : List (Rat × Bool × Rat) → CommandMetrics
  | [] => m
  | (d, s, t) :: rest => runUpdates (m.update_metrics d s t) rest

/-- Folding `record_command_execution` calls for one command name over a
sequence of (duration, success, now) records. -/
def runRecords (name : String) (metrics : List (String × CommandMetrics)) :
    List (Rat × Bool × Rat) → List (String × CommandMetrics)
  | [] => metrics
  | (d, s, t) :: rest =>
      runRecords name (BotStatsService.record_command_execution metrics name d s t) rest

/-! ### Concrete fixtures used by witnesses and counterexamples -/

/-- A valid command named alpha with trigger `.a`. -/
def cmdAlpha : Command := { name := "alpha", description := "first command", trigger := ".a" }

/-- A valid command named beta that reuses trigger `.a`. -/
def cmdBeta : Command := { name := "beta", description := "second command", trigger := ".a" }

/-- A valid command that duplicates the name alpha under trigger `.b`. -/
def cmdAlphaB : Command :=
  { name := "alpha", description := "duplicate name", trigger := ".b" }

/-- An invalid command definition: empty description. -/
def cmdNoDesc : Command := { name := "nodesc", description := "", trigger := ".n" }

/-- A message from user 5 whose content is exactly `.ping`. -/
def msgPing : Message := { author := some { id := 5 }, content := some ".ping" }

/-- A message from user 5 whose content does not start with any trigger. -/
def msgBadContent : Message :=
  { author := some { id := 5 }, content := some "hello" }

/-! ### Properties of the dict model -/

theorem dictGet?_dictSet_self {α : Type} (m : List (String × α)) (k : String) (v : α) :
    dictGet? (dictSet m k v) k = some v := by
  induction m with
  | nil => simp [dictSet, dictGet?]
  | cons hd tl ih =>
      obtain ⟨k₁, v₁⟩ := hd
      by_cases h : k₁ = k
      · simp [dictSet, dictGet?, h]
      · simp [dictSet, dictGet?, h, ih]

theorem dictGet?_dictSet_ne {α : Type} (m : List (String × α)) (k k₂ : String) (v : α)
    (h : k₂ ≠ k) : dictGet? (dictSet m k v) k₂ = dictGet? m k₂ := by
  induction m with
  | nil => simp [dictSet, dictGet?, Ne.symm h]
  | cons hd tl ih =>
      obtain ⟨k₁, v₁⟩ := hd
      by_cases h₁ : k₁ = k
      · subst h₁
        simp [dictSet, dictGet?, Ne.symm h]
      · by_cases h₂ : k₁ = k₂ <;> simp [dictSet, dictGet?, h₁, h₂, h, ih]

theorem dictGet?_dictDel_ne {α : Type} (m : List (String × α)) (k k₂ : String)
    (h : k₂ ≠ k) : dictGet? (dictDel m k) k₂ = dictGet? m k₂ := by
  induction m with
  | nil => simp [dictDel]
  | cons hd tl ih =>
      obtain ⟨k₁, v₁⟩ := hd
      by_cases h₁ : k₁ = k
      · subst h₁
        simp [dictDel, dictGet?, Ne.symm h]
      · by_cases h₂ : k₁ = k₂ <;> simp [dictDel, dictGet?, h₁, h₂, h, ih]

theorem dictGet?_eq_none_of_not_mem_keys {α : Type} (m : List (String × α)) (k : String)
    (h : k ∉ dictKeys m) : dictGet? m k = none := by
  induction m with
  | nil => simp [dictGet?]
  | cons hd tl ih =>
      obtain ⟨k₁, v₁⟩ := hd
      simp only [dictKeys, List.map_cons, List.mem_cons] at h
      push_neg at h
      simp only [dictGet?, if_neg (Ne.symm h.1), ih fun hm => h.2 hm]

theorem dictGet?_dictDel_self {α : Type} (m : List (String × α)) (k : String)
    (h : (dictKeys m).Nodup) : dictGet? (dictDel m k) k = none := by
  induction m with
  | nil => simp [dictDel, dictGet?]
  | cons hd tl ih =>
      obtain ⟨k₁, v₁⟩ := hd
      simp only [dictKeys, List.map_cons, List.nodup_cons] at h
      by_cases h₁ : k₁ = k
      · subst h₁
        simpa [dictDel] using dictGet?_eq_none_of_not_mem_keys tl k₁ h.1
      · simp [dictDel, dictGet?, h₁, ih h.2]

theorem mem_dictKeys_dictSet {α : Type} (m : List (String × α)) (k k₂ : String) (v : α) :
    k₂ ∈ dictKeys (dictSet m k v) ↔ k₂ ∈ dictKeys m ∨ k₂ = k := by
  induction m with
  | nil => simp [dictSet, dictKeys]
  | cons hd tl ih =>
      obtain ⟨k₁, v₁⟩ := hd
      by_cases h₁ : k₁ = k
      · subst h₁
        have hset : dictSet ((k₁, v₁) :: tl) k₁ v = (k₁, v) :: tl := by simp [dictSet]
        rw [hset]
        simp only [dictKeys, List.map_cons, List.mem_cons]
        tauto
      · have hset : dictSet ((k₁, v₁) :: tl) k v = (k₁, v₁) :: dictSet tl k v := by
          simp [dictSet, h₁]
        rw [hset]
        simp only [dictKeys, List.map_cons, List.mem_cons] at ih ⊢
        rw [ih]
        tauto

theorem dictKeys_dictSet_nodup {α : Type} (m : List (String × α)) (k : String) (v : α)
    (h : (dictKeys m).Nodup) : (dictKeys (dictSet m k v)).Nodup := by
  induction m with
  | nil => simp [dictSet, dictKeys]
  | cons hd tl ih =>
      obtain ⟨k₁, v₁⟩ := hd
      simp only [dictKeys, List.map_cons, List.nodup_cons] at h
      by_cases h₁ : k₁ = k
      · subst h₁
        have hset : dictSet ((k₁, v₁) :: tl) k₁ v = (k₁, v) :: tl := by simp [dictSet]
        rw [hset]
        simp only [dictKeys, List.map_cons, List.nodup_cons]
        exact h
      · have hset : dictSet ((k₁, v₁) :: tl) k v = (k₁, v₁) :: dictSet tl k v := by
          simp [dictSet, h₁]
        rw [hset]
        simp only [dictKeys, List.map_cons, List.nodup_cons]
        refine ⟨fun hm => ?_, ih h.2⟩
        have hm₂ : k₁ ∈ dictKeys (dictSet tl k v) := hm
        rcases (mem_dictKeys_dictSet tl k k₁ v).mp hm₂ with hm₁ | hm₁
        · exact h.1 hm₁
        · exact h₁ hm₁

theorem dictKeys_dictDel_sublist {α : Type} (m : List (String × α)) (k : String) :
    (dictKeys (dictDel m k)).Sublist (dictKeys m) := by
  induction m with
  | nil => simp [dictDel]
  | cons hd tl ih =>
      obtain ⟨k₁, v₁⟩ := hd
      by_cases h₁ : k₁ = k
      · simp only [dictDel, if_pos h₁, dictKeys, List.map_cons]
        exact List.sublist_cons_of_sublist _ (List.Sublist.refl _)
      · simp only [dictDel, if_neg h₁, dictKeys, List.map_cons]
        exact List.Sublist.cons₂ _ ih

theorem dictKeys_dictDel_nodup {α : Type} (m : List (String × α)) (k : String)
    (h : (dictKeys m).Nodup) : (dictKeys (dictDel m k)).Nodup :=
  (dictKeys_dictDel_sublist m k).nodup h

/-! ### The registry invariant -/

theorem registryInit_wf : RegWF registryInit := by
  refine ⟨List.nodup_nil, List.nodup_nil, fun k c h => ?_⟩
  simp [registryInit, dictGet?] at h

theorem wf_insert (commands names : List (String × Command)) (c : Command)
    (hnd₁ : (dictKeys commands).Nodup) (hnd₂ : (dictKeys names).Nodup)
    (hinv : ∀ k c₂, dictGet? commands k = some c₂ →
      k = c₂.trigger ∧ dictGet? names c₂.name = some c₂)
    (hok : ∀ existing, dictGet? names c.name = some existing →
      existing.trigger = c.trigger) :
    (dictKeys (dictSet commands c.trigger c)).Nodup ∧
    (dictKeys (dictSet names c.name c)).Nodup ∧
    ∀ k c₂, dictGet? (dictSet commands c.trigger c) k = some c₂ →
      k = c₂.trigger ∧ dictGet? (dictSet names c.name c) c₂.name = some c₂ := by
  refine ⟨dictKeys_dictSet_nodup _ _ _ hnd₁, dictKeys_dictSet_nodup _ _ _ hnd₂,
    fun k c₂ h => ?_⟩
  by_cases hk : k = c.trigger
  · subst hk
    rw [dictGet?_dictSet_self] at h
    cases h
    exact ⟨rfl, dictGet?_dictSet_self _ _ _⟩
  · rw [dictGet?_dictSet_ne _ _ _ _ hk] at h
    obtain ⟨hkt, hname⟩ := hinv k c₂ h
    by_cases hn : c₂.name = c.name
    · exfalso
      rw [hn] at hname
      have := hok c₂ hname
      exact hk (hkt.trans this)
    · exact ⟨hkt, by rw [dictGet?_dictSet_ne _ _ _ _ hn]; exact hname⟩

theorem register_preserves_wf (st : CommandRegistry) (command? : Option Command)
    (h : RegWF st) : RegWF (st.register command?).2 := by
  obtain ⟨hnd₁, hnd₂, hinv⟩ := h
  match command? with
  | none => exact ⟨hnd₁, hnd₂, hinv⟩
  | some command =>
    cases hv : CommandRegistry._validate_command command with
    | some e =>
        simp only [CommandRegistry.register, hv]
        exact ⟨hnd₁, hnd₂, hinv⟩
    | none =>
        cases hn : dictGet? st.command_names command.name with
        | some existing =>
            by_cases ht : existing.trigger = command.trigger
            · simp only [CommandRegistry.register, hv, hn]
              rw [if_neg (not_not_intro ht)]
              exact wf_insert st.commands st.command_names command hnd₁ hnd₂ hinv
                (fun e he => by rw [hn] at he; cases he; exact ht)
            · simp only [CommandRegistry.register, hv, hn]
              rw [if_pos ht]
              exact ⟨hnd₁, hnd₂, hinv⟩
        | none =>
            simp only [CommandRegistry.register, hv, hn]
            exact wf_insert st.commands st.command_names command hnd₁ hnd₂ hinv
              (fun e he => by rw [hn] at he; cases he)

theorem unregister_preserves_wf (st : CommandRegistry) (trigger : String)
    (h : RegWF st) : RegWF (st.unregister trigger).2 := by
  obtain ⟨hnd₁, hnd₂, hinv⟩ := h
  by_cases h₀ : trigger = ""
  · simp only [CommandRegistry.unregister, if_pos h₀]
    exact ⟨hnd₁, hnd₂, hinv⟩
  · cases hc : dictGet? st.commands trigger with
    | none =>
        simp only [CommandRegistry.unregister, if_neg h₀, hc]
        exact ⟨hnd₁, hnd₂, hinv⟩
    | some command =>
        simp only [CommandRegistry.unregister, if_neg h₀, hc]
        obtain ⟨hct, hcn⟩ := hinv trigger command hc
        refine ⟨dictKeys_dictDel_nodup _ _ hnd₁, dictKeys_dictDel_nodup _ _ hnd₂,
          fun k c₂ hk => ?_⟩
        by_cases hkt : k = trigger
        · subst hkt
          rw [dictGet?_dictDel_self _ _ hnd₁] at hk
          cases hk
        · rw [dictGet?_dictDel_ne _ _ _ hkt] at hk
          obtain ⟨hkt₂, hname⟩ := hinv k c₂ hk
          have hne : c₂.name ≠ command.name := by
            intro he
            rw [he, hcn] at hname
            cases hname
            exact hkt (hkt₂.trans hct.symm)
          exact ⟨hkt₂, by rw [dictGet?_dictDel_ne _ _ _ hne]; exact hname⟩

theorem applyOp_preserves_wf (st : CommandRegistry) (op : RegOp)
    (h : RegWF st) : RegWF (st.applyOp op) := by
  cases op with
  | reg command? => exact register_preserves_wf st command? h
  | unreg trigger => exact unregister_preserves_wf st trigger h

theorem runOps_wf (ops : List RegOp) : RegWF (CommandRegistry.runOps ops) := by
  have main : ∀ (l : List RegOp) (st : CommandRegistry),
      RegWF st → RegWF (l.foldl CommandRegistry.applyOp st) := by
    intro l
    induction l with
    | nil => intro st h; exact h
    | cons op rest ih =>
        intro st h
        exact ih _ (applyOp_preserves_wf st op h)
  exact main ops registryInit registryInit_wf

/-! ### Claims about the registry -/

/-- Claim C1 (amended): after every sequence of register and unregister calls
starting from a fresh registry, every currently registered command c — every
value of the trigger mapping — satisfies
`triggerToCommand[c.trigger] = c` and `nameToCommand[c.name] = c`.  (The
original claim's parenthetical — that re-registering an existing trigger
under a different command name leaves no entry in the name mapping absent
from the trigger mapping — fails on the code: the stale name entry of the
evicted command is never removed.) -/
theorem registry_two_mapping_invariant (ops : List RegOp) (k : String) (c : Command)
    (h : dictGet? (CommandRegistry.runOps ops).commands k = some c) :
    dictGet? (CommandRegistry.runOps ops).commands c.trigger = some c ∧
    dictGet? (CommandRegistry.runOps ops).command_names c.name = some c := by
  obtain ⟨-, -, hinv⟩ := runOps_wf ops
  obtain ⟨hk, hn⟩ := hinv k c h
  exact ⟨hk ▸ h, hn⟩

/-- Witness for the C1 theorem at a concrete one-call history. -/
theorem registry_two_mapping_invariant_witness :
    dictGet? (CommandRegistry.runOps [.reg (some cmdAlpha)]).commands ".a" = some cmdAlpha ∧
    dictGet? (CommandRegistry.runOps [.reg (some cmdAlpha)]).commands cmdAlpha.trigger
        = some cmdAlpha ∧
    dictGet? (CommandRegistry.runOps [.reg (some cmdAlpha)]).command_names cmdAlpha.name
        = some cmdAlpha :=
  ⟨by decide,
   (registry_two_mapping_invariant [.reg (some cmdAlpha)] ".a" cmdAlpha (by decide)).1,
   (registry_two_mapping_invariant [.reg (some cmdAlpha)] ".a" cmdAlpha (by decide)).2⟩

/-- Claim C1, counterexample to the parenthetical: registering alpha under
trigger `.a` and then beta under the same trigger leaves the trigger mapping
holding only cmdBeta while the name mapping still maps alpha to cmdAlpha — an
entry in the name mapping that is absent from the trigger mapping. -/
theorem registry_two_mapping_cex :
    (CommandRegistry.runOps [.reg (some cmdAlpha), .reg (some cmdBeta)]).commands
        = [(".a", cmdBeta)] ∧
    dictGet? (CommandRegistry.runOps
        [.reg (some cmdAlpha), .reg (some cmdBeta)]).command_names "alpha"
        = some cmdAlpha ∧
    cmdAlpha ≠ cmdBeta := by decide

/-- Claim C7 (amended): register called with a command that passes definition
validation and whose name is already bound to a command with a different
trigger always fails with the CommandError carrying code
DUPLICATE_COMMAND_NAME, and neither the trigger mapping nor the name mapping
is mutated by the failed call.  (The original claim, for an arbitrary such
command, fails on the code: definition validation runs first, so an invalid
command with a duplicate name raises a ValidationError instead.) -/
theorem duplicate_name_rejection (st : CommandRegistry) (c existing : Command)
    (hv : CommandRegistry._validate_command c = none)
    (hn : dictGet? st.command_names c.name = some existing)
    (ht : existing.trigger ≠ c.trigger) :
    (st.register (some c)).1 = some (duplicateNameError c existing) ∧
    (st.register (some c)).2.commands = st.commands ∧
    (st.register (some c)).2.command_names = st.command_names := by
  have h : st.register (some c)
      = (some (duplicateNameError c existing),
         { st with stats := { st.stats with
             registration_errors := st.stats.registration_errors + 1 } }) := by
    simp only [CommandRegistry.register, hv, hn]
    rw [if_pos ht]
  rw [h]
  exact ⟨rfl, rfl, rfl⟩

/-- Witness for the C7 theorem: alpha is registered under `.a`; registering
the valid command alpha/`.b` raises DUPLICATE_COMMAND_NAME. -/
theorem duplicate_name_rejection_witness :
    (CommandRegistry._validate_command cmdAlphaB = none ∧
     dictGet? (CommandRegistry.runOps [.reg (some cmdAlpha)]).command_names cmdAlphaB.name
       = some cmdAlpha ∧
     cmdAlpha.trigger ≠ cmdAlphaB.trigger) ∧
    ((CommandRegistry.runOps [.reg (some cmdAlpha)]).register (some cmdAlphaB)).1
      = some (duplicateNameError cmdAlphaB cmdAlpha) :=
  ⟨⟨by decide, by decide, by decide⟩,
   (duplicate_name_rejection (CommandRegistry.runOps [.reg (some cmdAlpha)])
      cmdAlphaB cmdAlpha (by decide) (by decide) (by decide)).1⟩

/-- Claim C7, counterexample to the original statement: with alpha already
registered under trigger `.a`, registering a command named alpha with trigger
`.b` but an empty description fails with the MISSING_DESCRIPTION
ValidationError, not with the DUPLICATE_COMMAND_NAME CommandError. -/
theorem duplicate_name_rejection_cex :
    dictGet? (CommandRegistry.runOps [.reg (some cmdAlpha)]).command_names "alpha"
        = some cmdAlpha ∧
    cmdAlpha.trigger ≠ ".b" ∧
    ((CommandRegistry.runOps [.reg (some cmdAlpha)]).register
        (some { name := "alpha", description := "", trigger := ".b" })).1
      = some (.validationError "Command must have a non-empty description" "description"
          "MISSING_DESCRIPTION") := by decide

/-- Claim C10: when register fails with a ValidationError — absent command,
or a command whose definition fails validation (empty name, empty
description, empty trigger, missing callable execute, or a trigger not
starting with a dot) — the raised error is exactly that validation error and
the whole registry state, both mappings and all three counters included, is
unchanged; hence registration_errors counts only failures raised inside the
locked section, such as duplicate-name rejections. -/
theorem register_validation_atomicity (st : CommandRegistry) (command? : Option Command)
    (h : command? = none ∨
      ∃ c, command? = some c ∧ CommandRegistry._validate_command c ≠ none) :
    (st.register command?).2 = st ∧
    (command? = none →
      (st.register command?).1
        = some (.validationError "Command cannot be None" "command" "NULL_COMMAND")) ∧
    (∀ c, command? = some c →
      (st.register command?).1 = CommandRegistry._validate_command c) := by
  rcases h with h | ⟨c, hc, hv⟩
  · subst h
    exact ⟨rfl, fun _ => rfl, fun c hc => Option.noConfusion hc⟩
  · subst hc
    cases hval : CommandRegistry._validate_command c with
    | none => exact absurd hval hv
    | some e =>
        refine ⟨?_, fun hh => Option.noConfusion hh, fun c₂ hc₂ => ?_⟩
        · simp only [CommandRegistry.register, hval]
        · have hcc := Option.some.inj hc₂
          subst hcc
          simp only [CommandRegistry.register, hval]

/-- Witness for the C10 theorem at the empty-description command. -/
theorem register_validation_atomicity_witness :
    (some cmdNoDesc = none ∨
      ∃ c, some cmdNoDesc = some c ∧ CommandRegistry._validate_command c ≠ none) ∧
    (registryInit.register (some cmdNoDesc)).2 = registryInit :=
  ⟨Or.inr ⟨cmdNoDesc, rfl, by decide⟩,
   (register_validation_atomicity registryInit (some cmdNoDesc)
      (Or.inr ⟨cmdNoDesc, rfl, by decide⟩)).1⟩

/-! ### Path equations of the execution pipeline -/

theorem exceptResult_of_author (name : String) (msg : Message) (author : Author)
    (e : PyError) (rt : Rat) (ha : msg.author = some author) :
    BaseCommand.exceptResult name (some msg) e rt =
      .ok { success := false, error := some e.msg, response_time := some rt,
            metadata := some [("command_name", name), ("user_id", toString author.id),
                              ("error_type", e.tyName)] } := by
  simp [BaseCommand.exceptResult, ha]

theorem execute_disabled_eq (cfg : CommandConfig) (name trigger : String)
    (ledger : List (String × Rat)) (msg? : Option Message)
    (inner : Except PyError CommandExecutionResult) (tm : Nat → Rat)
    (h : cfg.enabled = false) :
    BaseCommand.execute cfg name trigger ledger msg? inner tm =
      .ok ({ success := false, error := some "Command is currently disabled",
             response_time := some ((tm 1 - tm 0) * 1000) }, ledger) := by
  simp [BaseCommand.execute, h]

theorem execute_cooldown_fail_eq (cfg : CommandConfig) (name trigger : String)
    (ledger : List (String × Rat)) (msg : Message) (author : Author)
    (inner : Except PyError CommandExecutionResult) (tm : Nat → Rat)
    (hE : cfg.enabled = true) (ha : msg.author = some author)
    (hg : BaseCommand._check_cooldown cfg ledger author.id (tm 1) = false) :
    BaseCommand.execute cfg name trigger ledger (some msg) inner tm =
      .ok ({ success := false,
             error := some (cooldownErrMsg
               (BaseCommand._get_cooldown_remaining cfg ledger author.id (tm 2))),
             response_time := some ((tm 3 - tm 0) * 1000) }, ledger) := by
  simp [BaseCommand.execute, hE, ha, hg]

theorem execute_invalid_eq (cfg : CommandConfig) (name trigger : String)
    (ledger : List (String × Rat)) (msg : Message) (author : Author)
    (inner : Except PyError CommandExecutionResult) (tm : Nat → Rat)
    (hE : cfg.enabled = true) (ha : msg.author = some author)
    (hg : BaseCommand._check_cooldown cfg ledger author.id (tm 1) = true)
    (hv : BaseCommand._validate_message trigger (some msg) = false) :
    BaseCommand.execute cfg name trigger ledger (some msg) inner tm =
      (BaseCommand.exceptResult name (some msg) invalidMessageError
        ((tm (if cooldownTruthy cfg then 2 else 1) - tm 0) * 1000)).map
          (fun r => (r, ledger)) := by
  simp [BaseCommand.execute, hE, ha, hg, hv]

theorem execute_inner_error_eq (cfg : CommandConfig) (name trigger : String)
    (ledger : List (String × Rat)) (msg : Message) (author : Author)
    (e : PyError) (tm : Nat → Rat)
    (hE : cfg.enabled = true) (ha : msg.author = some author)
    (hg : BaseCommand._check_cooldown cfg ledger author.id (tm 1) = true)
    (hv : BaseCommand._validate_message trigger (some msg) = true) :
    BaseCommand.execute cfg name trigger ledger (some msg) (.error e) tm =
      (BaseCommand.exceptResult name (some msg) e
        ((tm (if cooldownTruthy cfg then 2 else 1) - tm 0) * 1000)).map
          (fun r => (r, ledger)) := by
  simp [BaseCommand.execute, hE, ha, hg, hv]

theorem execute_inner_ok_eq (cfg : CommandConfig) (name trigger : String)
    (ledger : List (String × Rat)) (msg : Message) (author : Author)
    (r : CommandExecutionResult) (tm : Nat → Rat)
    (hE : cfg.enabled = true) (ha : msg.author = some author)
    (hg : BaseCommand._check_cooldown cfg ledger author.id (tm 1) = true)
    (hv : BaseCommand._validate_message trigger (some msg) = true) :
    BaseCommand.execute cfg name trigger ledger (some msg) (.ok r) tm =
      .ok (BaseCommand.enrichResult name author.id r
             ((tm (if cooldownTruthy cfg then 3 else 1) - tm 0) * 1000),
           BaseCommand._update_cooldown cfg ledger author.id
             (tm (if cooldownTruthy cfg then 2 else 1))) := by
  simp [BaseCommand.execute, hE, ha, hg, hv]

/-! ### Claims about the execution pipeline -/

/-- Claim C6: for every message (present or absent, any content) and every
inner behavior, invoking the pipeline on a command whose config.enabled is
false returns success=false with error "Command is currently disabled" and
response_time set from elapsed wall time; the returned ledger is the input
ledger and the result does not depend on the inner execution, so inner logic
is never invoked and the cooldown ledger is untouched. -/
theorem disabled_short_circuit (cfg : CommandConfig) (name trigger : String)
    (ledger : List (String × Rat)) (msg? : Option Message)
    (inner : Except PyError CommandExecutionResult) (tm : Nat → Rat)
    (h : cfg.enabled = false) :
    BaseCommand.execute cfg name trigger ledger msg? inner tm =
      .ok ({ success := false, error := some "Command is currently disabled",
             response_time := some ((tm 1 - tm 0) * 1000) }, ledger) :=
  execute_disabled_eq cfg name trigger ledger msg? inner tm h

/-- Witness for the C6 theorem at a concrete disabled command. -/
theorem disabled_short_circuit_witness :
    CommandConfig.enabled { enabled := false } = false ∧
    BaseCommand.execute { enabled := false } "ping" ".ping" [] (some msgPing)
      (.ok { success := true }) (fun _ => 0) =
      .ok ({ success := false, error := some "Command is currently disabled",
             response_time := some ((0 - 0 : Rat) * 1000) }, []) :=
  ⟨rfl, disabled_short_circuit { enabled := false } "ping" ".ping" [] (some msgPing)
      (.ok { success := true }) (fun _ => 0) rfl⟩

/-- Claim C2 (amended): when the message and its author are present, the
pipeline entry point execute never lets an exception propagate to its
caller; any exception raised during validation or inner execution is
converted into a returned result with success=false carrying the error's
string form, the elapsed time, and metadata including the error's type name
— stated once for the ValidationError raised when message validation fails
and once for any exception raised by inner execution.  (The original claim
also covered a message that is absent or has no author; for those inputs the
except handler itself re-raises while evaluating str(message.author.id), and
the AttributeError propagates.) -/
theorem pipeline_error_containment (cfg : CommandConfig) (name trigger : String)
    (ledger : List (String × Rat)) (msg : Message) (author : Author)
    (inner : Except PyError CommandExecutionResult) (tm : Nat → Rat)
    (ha : msg.author = some author) :
    (∀ e, BaseCommand.execute cfg name trigger ledger (some msg) inner tm
      ≠ .error e) ∧
    (cfg.enabled = true →
      BaseCommand._check_cooldown cfg ledger author.id (tm 1) = true →
      BaseCommand._validate_message trigger (some msg) = false →
      BaseCommand.execute cfg name trigger ledger (some msg) inner tm =
        .ok ({ success := false, error := some invalidMessageError.msg,
               response_time :=
                 some ((tm (if cooldownTruthy cfg then 2 else 1) - tm 0) * 1000),
               metadata := some [("command_name", name),
                                 ("user_id", toString author.id),
                                 ("error_type", invalidMessageError.tyName)] },
             ledger)) ∧
    (∀ e, inner = .error e → cfg.enabled = true →
      BaseCommand._check_cooldown cfg ledger author.id (tm 1) = true →
      BaseCommand._validate_message trigger (some msg) = true →
      BaseCommand.execute cfg name trigger ledger (some msg) inner tm =
        .ok ({ success := false, error := some e.msg,
               response_time :=
                 some ((tm (if cooldownTruthy cfg then 2 else 1) - tm 0) * 1000),
               metadata := some [("command_name", name),
                                 ("user_id", toString author.id),
                                 ("error_type", e.tyName)] }, ledger)) := by
  refine ⟨?_, ?_, ?_⟩
  · intro e h
    cases hE : cfg.enabled with
    | false =>
        rw [execute_disabled_eq cfg name trigger ledger (some msg) inner tm hE] at h
        exact Except.noConfusion h
    | true =>
        cases hg : BaseCommand._check_cooldown cfg ledger author.id (tm 1) with
        | false =>
            rw [execute_cooldown_fail_eq cfg name trigger ledger msg author inner tm
              hE ha hg] at h
            exact Except.noConfusion h
        | true =>
            cases hv : BaseCommand._validate_message trigger (some msg) with
            | false =>
                rw [execute_invalid_eq cfg name trigger ledger msg author inner tm
                  hE ha hg hv, exceptResult_of_author name msg author _ _ ha] at h
                exact Except.noConfusion h
            | true =>
                cases inner with
                | ok r =>
                    rw [execute_inner_ok_eq cfg name trigger ledger msg author r tm
                      hE ha hg hv] at h
                    exact Except.noConfusion h
                | error e₂ =>
                    rw [execute_inner_error_eq cfg name trigger ledger msg author e₂ tm
                      hE ha hg hv, exceptResult_of_author name msg author _ _ ha] at h
                    exact Except.noConfusion h
  · intro hE hg hv
    rw [execute_invalid_eq cfg name trigger ledger msg author inner tm hE ha hg hv,
      exceptResult_of_author name msg author _ _ ha]
    rfl
  · intro e hi hE hg hv
    subst hi
    rw [execute_inner_error_eq cfg name trigger ledger msg author e tm hE ha hg hv,
      exceptResult_of_author name msg author _ _ ha]
    rfl

/-- Witness for the C2 theorem: an enabled default-config command whose inner
logic raises, on a well-formed message (non-propagation), and one invoked on
a message failing validation (ValidationError conversion). -/
theorem pipeline_error_containment_witness :
    (msgPing.author = some { id := 5 } ∧
     ∀ e, BaseCommand.execute {} "ping" ".ping" [] (some msgPing)
       (.error { tyName := "RuntimeError", msg := "boom" }) (fun n => (n : Rat))
         ≠ .error e) ∧
    (msgBadContent.author = some { id := 5 } ∧
     BaseCommand._validate_message ".ping" (some msgBadContent) = false ∧
     BaseCommand.execute {} "ping" ".ping" [] (some msgBadContent)
       (.ok { success := true }) (fun _ => (0 : Rat)) =
       .ok ({ success := false, error := some invalidMessageError.msg,
              response_time := some (((0 : Rat) - 0) * 1000),
              metadata := some [("command_name", "ping"),
                                ("user_id", toString ((5 : Int))),
                                ("error_type", invalidMessageError.tyName)] }, [])) :=
  ⟨⟨rfl, (pipeline_error_containment {} "ping" ".ping" [] msgPing { id := 5 }
      (.error { tyName := "RuntimeError", msg := "boom" }) (fun n => (n : Rat)) rfl).1⟩,
   rfl, by decide,
   (pipeline_error_containment {} "ping" ".ping" [] msgBadContent { id := 5 }
      (.ok { success := true }) (fun _ => (0 : Rat)) rfl).2.1 rfl (by decide) (by decide)⟩

/-- Claim C2, counterexample: with the default (enabled) config and an
absent message, execute lets the AttributeError raised inside its own except
handler propagate instead of returning a result. -/
theorem pipeline_error_containment_cex :
    BaseCommand.execute {} "ping" ".ping" [] none (.ok { success := true }) (fun _ => 0)
      = .error (attrErrNone "author") := by decide

theorem enrichResult_fields (name : String) (uid : Int)
    (r : CommandExecutionResult) (rt : Rat) :
    (BaseCommand.enrichResult name uid r rt).metadata ≠ none ∧
    (BaseCommand.enrichResult name uid r rt).response_time ≠ none ∧
    dictGet? (((BaseCommand.enrichResult name uid r rt).metadata).getD [])
      "command_name" = some name ∧
    dictGet? (((BaseCommand.enrichResult name uid r rt).metadata).getD [])
      "user_id" = some (toString uid) := by
  have hkeys : ∀ md : List (String × String),
      dictGet? (dictSet (dictSet md "command_name" name) "user_id" (toString uid))
        "command_name" = some name ∧
      dictGet? (dictSet (dictSet md "command_name" name) "user_id" (toString uid))
        "user_id" = some (toString uid) := by
    intro md
    constructor
    · rw [dictGet?_dictSet_ne _ _ _ _ (by decide), dictGet?_dictSet_self]
    · rw [dictGet?_dictSet_self]
  cases hr : r.response_time with
  | none =>
      refine ⟨by simp [BaseCommand.enrichResult, hr], by simp [BaseCommand.enrichResult, hr],
        ?_, ?_⟩
      · simpa [BaseCommand.enrichResult, hr] using (hkeys _).1
      · simpa [BaseCommand.enrichResult, hr] using (hkeys _).2
  | some v =>
      refine ⟨by simp [BaseCommand.enrichResult, hr], by simp [BaseCommand.enrichResult, hr],
        ?_, ?_⟩
      · simpa [BaseCommand.enrichResult, hr] using (hkeys _).1
      · simpa [BaseCommand.enrichResult, hr] using (hkeys _).2

/-- Claim C3 (amended): every result returned by the pipeline has a
non-absent metadata mapping and a populated response_time; on the paths that
reach the except handler or complete inner execution the metadata moreover
contains command_name and user_id.  (The original claim asserted the two
keys on every path; the disabled and cooldown short-circuit results are
built without metadata injection and carry the empty dict.) -/
theorem metadata_enrichment (cfg : CommandConfig) (name trigger : String)
    (ledger led : List (String × Rat)) (msg : Message) (author : Author)
    (inner : Except PyError CommandExecutionResult) (tm : Nat → Rat)
    (res : CommandExecutionResult)
    (ha : msg.author = some author)
    (h : BaseCommand.execute cfg name trigger ledger (some msg) inner tm
      = .ok (res, led)) :
    res.metadata ≠ none ∧ res.response_time ≠ none ∧
    (cfg.enabled = true →
      BaseCommand._check_cooldown cfg ledger author.id (tm 1) = true →
      dictGet? (res.metadata.getD []) "command_name" = some name ∧
      dictGet? (res.metadata.getD []) "user_id" = some (toString author.id)) := by
  cases hE : cfg.enabled with
  | false =>
      rw [execute_disabled_eq cfg name trigger ledger (some msg) inner tm hE] at h
      injection h with hp
      injection hp with h₁ h₂
      subst h₁
      refine ⟨by simp, by simp, fun hE₂ _ => ?_⟩
      exact Bool.noConfusion hE₂
  | true =>
      cases hg : BaseCommand._check_cooldown cfg ledger author.id (tm 1) with
      | false =>
          rw [execute_cooldown_fail_eq cfg name trigger ledger msg author inner tm
            hE ha hg] at h
          injection h with hp
          injection hp with h₁ h₂
          subst h₁
          refine ⟨by simp, by simp, fun _ hg₂ => ?_⟩
          exact Bool.noConfusion hg₂
      | true =>
          cases hv : BaseCommand._validate_message trigger (some msg) with
          | false =>
              rw [execute_invalid_eq cfg name trigger ledger msg author inner tm
                hE ha hg hv, exceptResult_of_author name msg author _ _ ha] at h
              simp only [Except.map] at h
              injection h with hp
              injection hp with h₁ h₂
              subst h₁
              refine ⟨by simp, by simp, fun _ _ => ?_⟩
              exact ⟨by simp [dictGet?], by simp [dictGet?]⟩
          | true =>
              cases inner with
              | error e =>
                  rw [execute_inner_error_eq cfg name trigger ledger msg author e tm
                    hE ha hg hv, exceptResult_of_author name msg author _ _ ha] at h
                  simp only [Except.map] at h
                  injection h with hp
                  injection hp with h₁ h₂
                  subst h₁
                  refine ⟨by simp, by simp, fun _ _ => ?_⟩
                  exact ⟨by simp [dictGet?], by simp [dictGet?]⟩
              | ok r =>
                  rw [execute_inner_ok_eq cfg name trigger ledger msg author r tm
                    hE ha hg hv] at h
                  injection h with hp
                  injection hp with h₁ h₂
                  subst h₁
                  obtain ⟨e₁, e₂, e₃, e₄⟩ := enrichResult_fields name author.id r
                    ((tm (if cooldownTruthy cfg then 3 else 1) - tm 0) * 1000)
                  exact ⟨e₁, e₂, fun _ _ => ⟨e₃, e₄⟩⟩

/-- Witness for the C3 theorem on the inner-completion path. -/
theorem metadata_enrichment_witness :
    (msgPing.author = some { id := 5 } ∧
     BaseCommand.execute {} "ping" ".ping" [] (some msgPing) (.ok { success := true })
        (fun n => (n : Rat)) =
       .ok ({ success := true, response_time := some 1000,
              metadata := some [("command_name", "ping"), ("user_id", "5")] }, [])) ∧
    (({ success := true, response_time := some 1000,
        metadata := some [("command_name", "ping"), ("user_id", "5")] }
      : CommandExecutionResult).metadata) ≠ none :=
  ⟨⟨rfl, by decide⟩,
   (metadata_enrichment {} "ping" ".ping" [] [] msgPing { id := 5 }
      (.ok { success := true }) (fun n => (n : Rat)) _ rfl (by decide)).1⟩

/-- Claim C3, counterexample: the disabled short-circuit result carries the
empty metadata dict, with no command_name (nor user_id) key. -/
theorem metadata_enrichment_cex :
    BaseCommand.execute { enabled := false } "ping" ".ping" [] (some msgPing)
      (.ok { success := true }) (fun _ => 0) =
      .ok ({ success := false, error := some "Command is currently disabled",
             response_time := some 0 }, []) ∧
    dictGet? ((({ success := false, error := some "Command is currently disabled",
                  response_time := some 0 } : CommandExecutionResult).metadata).getD [])
      "command_name" = none := by decide

/-- Claim C4: for a command with cooldown C > 0 ms, an invocation by a user
whose elapsed time since their last recorded execution is strictly less than
C returns success=false with an error reporting the remaining time (floored
at 0), does not run inner execution (the result is the same for every inner
behavior) and does not advance that user ledger entry; an invocation with
elapsed time at least C passes the gate and, when the message validates,
proceeds to inner execution; a command with cooldown unset or zero always
passes the gate. -/
theorem cooldown_gate_boundary (cfg : CommandConfig) (name trigger : String)
    (ledger : List (String × Rat)) (msg : Message) (author : Author) (tm : Nat → Rat)
    (ha : msg.author = some author) (hE : cfg.enabled = true) :
    (∀ (C : Int) (last : Rat), cfg.cooldown = some C → 0 < C →
      dictGet? ledger (toString author.id) = some last →
      tm 1 - last < (C : Rat) / 1000 →
      BaseCommand._check_cooldown cfg ledger author.id (tm 1) = false ∧
      ∀ inner : Except PyError CommandExecutionResult,
        BaseCommand.execute cfg name trigger ledger (some msg) inner tm =
          .ok ({ success := false,
                 error := some (cooldownErrMsg (max 0 ((C : Rat) / 1000 - (tm 2 - last)))),
                 response_time := some ((tm 3 - tm 0) * 1000) }, ledger)) ∧
    (∀ (C : Int) (last : Rat), cfg.cooldown = some C → 0 < C →
      dictGet? ledger (toString author.id) = some last →
      (C : Rat) / 1000 ≤ tm 1 - last →
      BaseCommand._check_cooldown cfg ledger author.id (tm 1) = true ∧
      (BaseCommand._validate_message trigger (some msg) = true →
        ∀ r : CommandExecutionResult,
          BaseCommand.execute cfg name trigger ledger (some msg) (.ok r) tm =
            .ok (BaseCommand.enrichResult name author.id r ((tm 3 - tm 0) * 1000),
                 dictSet ledger (toString author.id) (tm 2)))) ∧
    ((cfg.cooldown = none ∨ cfg.cooldown = some 0) →
      BaseCommand._check_cooldown cfg ledger author.id (tm 1) = true) := by
  refine ⟨?_, ?_, ?_⟩
  · intro C last hC hCpos hlast hlt
    have hT : cooldownTruthy cfg = true := by
      simp [cooldownTruthy, hC]
      omega
    have hgate : BaseCommand._check_cooldown cfg ledger author.id (tm 1) = false := by
      simp only [BaseCommand._check_cooldown, hT, if_true, hlast, Option.getD_some,
        cooldownMs, hC, decide_eq_false_iff_not]
      exact not_le.mpr hlt
    refine ⟨hgate, fun inner => ?_⟩
    rw [execute_cooldown_fail_eq cfg name trigger ledger msg author inner tm hE ha hgate]
    have hrem : BaseCommand._get_cooldown_remaining cfg ledger author.id (tm 2)
        = max 0 ((C : Rat) / 1000 - (tm 2 - last)) := by
      simp [BaseCommand._get_cooldown_remaining, hT, hlast, cooldownMs, hC]
    rw [hrem]
  · intro C last hC hCpos hlast hge
    have hT : cooldownTruthy cfg = true := by
      simp [cooldownTruthy, hC]
      omega
    have hgate : BaseCommand._check_cooldown cfg ledger author.id (tm 1) = true := by
      simp only [BaseCommand._check_cooldown, hT, if_true, hlast, Option.getD_some,
        cooldownMs, hC, decide_eq_true_eq]
      exact hge
    refine ⟨hgate, fun hv r => ?_⟩
    rw [execute_inner_ok_eq cfg name trigger ledger msg author r tm hE ha hgate hv]
    simp [hT, BaseCommand._update_cooldown]
  · intro h
    rcases h with h | h <;> simp [BaseCommand._check_cooldown, cooldownTruthy, h]

/-- A command configuration with a 1000 ms cooldown, for the witnesses. -/
def cfg1000 : CommandConfig := { cooldown := some 1000 }

/-- Witness for the C4 theorem: user 5 last ran at t=0, invokes again at
t=0.5 s against a 1000 ms cooldown, and the gate refuses. -/
theorem cooldown_gate_boundary_witness :
    (cfg1000.cooldown = some 1000 ∧ (0 : Int) < 1000 ∧
     dictGet? [("5", (0 : Rat))] (toString ((5 : Int))) = some 0 ∧
     ((fun n => (n : Rat) / 2) 1 - 0 < ((1000 : Int) : Rat) / 1000)) ∧
    BaseCommand._check_cooldown cfg1000 [("5", (0 : Rat))] 5
      ((fun n => (n : Rat) / 2) 1) = false :=
  ⟨⟨rfl, by decide, by decide, by decide⟩,
   ((cooldown_gate_boundary cfg1000 "ping" ".ping" [("5", (0 : Rat))] msgPing { id := 5 }
      (fun n => (n : Rat) / 2) rfl rfl).1 1000 0 rfl (by decide) (by decide)
      (by decide)).1⟩

/-- Claim C5 (amended): for a command whose cooldown is set and nonzero,
whenever inner execution returns without raising the pipeline records the
current time in the cooldown ledger for the invoking user — even when the
returned result has success=false — and an exception raised during inner
execution leaves the ledger unchanged.  (The original claim, over every
command, fails on the code: with cooldown unset or zero _update_cooldown is
a no-op and nothing is ever recorded.) -/
theorem cooldown_consumption (cfg : CommandConfig) (name trigger : String)
    (ledger : List (String × Rat)) (msg : Message) (author : Author) (tm : Nat → Rat)
    (ha : msg.author = some author) (hE : cfg.enabled = true)
    (hT : cooldownTruthy cfg = true)
    (hg : BaseCommand._check_cooldown cfg ledger author.id (tm 1) = true)
    (hv : BaseCommand._validate_message trigger (some msg) = true) :
    (∀ r : CommandExecutionResult,
      BaseCommand.execute cfg name trigger ledger (some msg) (.ok r) tm =
        .ok (BaseCommand.enrichResult name author.id r ((tm 3 - tm 0) * 1000),
             dictSet ledger (toString author.id) (tm 2))) ∧
    (∀ e : PyError,
      BaseCommand.execute cfg name trigger ledger (some msg) (.error e) tm =
        .ok ({ success := false, error := some e.msg,
               response_time := some ((tm 2 - tm 0) * 1000),
               metadata := some [("command_name", name),
                                 ("user_id", toString author.id),
                                 ("error_type", e.tyName)] }, ledger)) := by
  constructor
  · intro r
    rw [execute_inner_ok_eq cfg name trigger ledger msg author r tm hE ha hg hv]
    simp [hT, BaseCommand._update_cooldown]
  · intro e
    rw [execute_inner_error_eq cfg name trigger ledger msg author e tm hE ha hg hv,
      exceptResult_of_author name msg author _ _ ha]
    simp [hT, Except.map]

/-- Witness for the C5 theorem: a 1000 ms-cooldown command, user 5 invoking
at t=7 with an empty ledger, inner result success=false; the ledger records
t=7 for user 5 anyway. -/
theorem cooldown_consumption_witness :
    (cooldownTruthy cfg1000 = true ∧
     BaseCommand._check_cooldown cfg1000 [] 5 ((fun _ => (7 : Rat)) 1) = true ∧
     BaseCommand._validate_message ".ping" (some msgPing) = true) ∧
    BaseCommand.execute cfg1000 "ping" ".ping" [] (some msgPing)
      (.ok { success := false }) (fun _ => (7 : Rat)) =
      .ok (BaseCommand.enrichResult "ping" (5 : Int) { success := false }
             (((7 : Rat) - 7) * 1000),
           dictSet [] (toString ((5 : Int))) ((7 : Rat))) :=
  ⟨⟨by decide, by decide, by decide⟩,
   (cooldown_consumption cfg1000 "ping" ".ping" [] msgPing { id := 5 }
      (fun _ => (7 : Rat)) rfl rfl (by decide) (by decide) (by decide)).1
      { success := false }⟩

/-- Claim C5, counterexample: with the default config (cooldown None), inner
execution returns without raising (with success=false), yet the returned
ledger is still empty — no timestamp was recorded for the user. -/
theorem cooldown_consumption_cex :
    BaseCommand.execute {} "ping" ".ping" [] (some msgPing)
      (.ok { success := false }) (fun n => (n : Rat)) =
      .ok ({ success := false, response_time := some 1000,
             metadata := some [("command_name", "ping"), ("user_id", "5")] }, []) ∧
    dictGet? ([] : List (String × Rat)) "5" = none := by decide

/-! ### Claims about the dispatcher -/

/-- Claim C9: for every content string and every registry snapshot, the
dispatcher selects the first command in iteration order whose trigger is a
literal prefix of the content and whose config is enabled — a disabled
prefix-matching command earlier in the order is skipped rather than
terminating the scan — and it selects none exactly when no enabled prefix
match exists, in which case no command is executed. -/
theorem dispatcher_first_match (content : String) (commands : List Command) :
    DiscordService._find_matching_command content commands =
      commands.find? (fun c => pyStartsWith content c.trigger && c.config.enabled) ∧
    (DiscordService._find_matching_command content commands = none ↔
      ∀ c ∈ commands,
        ¬(pyStartsWith content c.trigger = true ∧ c.config.enabled = true)) := by
  have hmain : DiscordService._find_matching_command content commands =
      commands.find? (fun c => pyStartsWith content c.trigger && c.config.enabled) := by
    induction commands with
    | nil => rfl
    | cons c rest ih =>
        cases h₁ : pyStartsWith content c.trigger with
        | true =>
            cases h₂ : c.config.enabled with
            | true => simp [DiscordService._find_matching_command, List.find?, h₁, h₂]
            | false => simp [DiscordService._find_matching_command, List.find?, h₁, h₂, ih]
        | false => simp [DiscordService._find_matching_command, List.find?, h₁, ih]
  refine ⟨hmain, ?_⟩
  rw [hmain, List.find?_eq_none]
  constructor
  · intro h c hc hand
    have := h c hc
    rw [hand.1, hand.2] at this
    simp at this
  · intro h c hc
    have := h c hc
    cases hp : pyStartsWith content c.trigger with
    | false => simp [hp]
    | true =>
        cases he : c.config.enabled with
        | false => simp [hp, he]
        | true => exact absurd ⟨hp, he⟩ this

/-! ### Claims about the metrics aggregator -/

theorem runUpdates_execution_count (recs : List (Rat × Bool × Rat)) :
    ∀ m : CommandMetrics,
      (runUpdates m recs).execution_count = m.execution_count + recs.length := by
  induction recs with
  | nil => intro m; simp [runUpdates]
  | cons r rest ih =>
      intro m
      obtain ⟨d, s, t⟩ := r
      simp only [runUpdates, ih, CommandMetrics.update_metrics, List.length_cons]
      omega

theorem runUpdates_total (recs : List (Rat × Bool × Rat)) :
    ∀ m : CommandMetrics,
      (runUpdates m recs).total_execution_time
        = m.total_execution_time + (recs.map fun r => r.1).sum := by
  induction recs with
  | nil => intro m; simp [runUpdates]
  | cons r rest ih =>
      intro m
      obtain ⟨d, s, t⟩ := r
      simp only [runUpdates, ih, CommandMetrics.update_metrics, List.map_cons,
        List.sum_cons]
      ring

theorem runUpdates_success_error (recs : List (Rat × Bool × Rat)) :
    ∀ m : CommandMetrics,
      (runUpdates m recs).success_count + (runUpdates m recs).error_count
        = m.success_count + m.error_count + recs.length := by
  induction recs with
  | nil => intro m; simp [runUpdates]
  | cons r rest ih =>
      intro m
      obtain ⟨d, s, t⟩ := r
      simp only [runUpdates, ih, CommandMetrics.update_metrics, List.length_cons]
      cases s <;> simp <;> omega

theorem runUpdates_avg (recs : List (Rat × Bool × Rat)) :
    ∀ m : CommandMetrics, recs ≠ [] →
      (runUpdates m recs).average_execution_time
        = (runUpdates m recs).total_execution_time
          / ((runUpdates m recs).execution_count : Rat) := by
  induction recs with
  | nil => intro m h; exact absurd rfl h
  | cons r rest ih =>
      intro m h
      obtain ⟨d, s, t⟩ := r
      by_cases hr : rest = []
      · subst hr
        simp [runUpdates, CommandMetrics.update_metrics]
      · simp only [runUpdates]
        exact ih (m.update_metrics d s t) hr

theorem runUpdates_min (recs : List (Rat × Bool × Rat)) :
    ∀ m : CommandMetrics,
      (runUpdates m recs).min_execution_time
        = (recs.map fun r => r.1).foldl (fun acc d => some (minInf acc d))
            m.min_execution_time := by
  induction recs with
  | nil => intro m; rfl
  | cons r rest ih =>
      intro m
      obtain ⟨d, s, t⟩ := r
      simp only [runUpdates, List.map_cons, List.foldl_cons]
      rw [ih]
      rfl

theorem runUpdates_max (recs : List (Rat × Bool × Rat)) :
    ∀ m : CommandMetrics,
      (runUpdates m recs).max_execution_time
        = (recs.map fun r => r.1).foldl max m.max_execution_time := by
  induction recs with
  | nil => intro m; rfl
  | cons r rest ih =>
      intro m
      obtain ⟨d, s, t⟩ := r
      simp only [runUpdates, List.map_cons, List.foldl_cons]
      rw [ih]
      rfl

theorem foldl_minInf_some (ds : List Rat) :
    ∀ a : Rat, ds.foldl (fun acc d => some (minInf acc d)) (some a)
      = some (ds.foldl min a) := by
  induction ds with
  | nil => intro a; rfl
  | cons d rest ih =>
      intro a
      simp only [List.foldl_cons]
      rw [ih]
      rfl

theorem foldl_min_mem (ds : List Rat) :
    ∀ a : Rat, ds.foldl min a = a ∨ ds.foldl min a ∈ ds := by
  induction ds with
  | nil => intro a; exact Or.inl rfl
  | cons d rest ih =>
      intro a
      rw [List.foldl_cons]
      rcases ih (min a d) with h | h
      · rcases min_choice a d with hm | hm
        · exact Or.inl (by rw [h, hm])
        · exact Or.inr (by rw [h, hm]; exact List.mem_cons_self d rest)
      · exact Or.inr (List.mem_cons_of_mem d h)

theorem foldl_min_le (ds : List Rat) :
    ∀ a : Rat, ds.foldl min a ≤ a ∧ ∀ x ∈ ds, ds.foldl min a ≤ x := by
  induction ds with
  | nil =>
      intro a
      exact ⟨le_refl a, fun x hx => absurd hx (List.not_mem_nil x)⟩
  | cons d rest ih =>
      intro a
      rw [List.foldl_cons]
      obtain ⟨h₁, h₂⟩ := ih (min a d)
      refine ⟨le_trans h₁ (min_le_left a d), fun x hx => ?_⟩
      rcases List.mem_cons.mp hx with rfl | hx
      · exact le_trans h₁ (min_le_right a x)
      · exact h₂ x hx

theorem foldl_max_mem (ds : List Rat) :
    ∀ a : Rat, ds.foldl max a = a ∨ ds.foldl max a ∈ ds := by
  induction ds with
  | nil => intro a; exact Or.inl rfl
  | cons d rest ih =>
      intro a
      rw [List.foldl_cons]
      rcases ih (max a d) with h | h
      · rcases max_choice a d with hm | hm
        · exact Or.inl (by rw [h, hm])
        · exact Or.inr (by rw [h, hm]; exact List.mem_cons_self d rest)
      · exact Or.inr (List.mem_cons_of_mem d h)

theorem foldl_max_ge (ds : List Rat) :
    ∀ a : Rat, a ≤ ds.foldl max a ∧ ∀ x ∈ ds, x ≤ ds.foldl max a := by
  induction ds with
  | nil =>
      intro a
      exact ⟨le_refl a, fun x hx => absurd hx (List.not_mem_nil x)⟩
  | cons d rest ih =>
      intro a
      rw [List.foldl_cons]
      obtain ⟨h₁, h₂⟩ := ih (max a d)
      refine ⟨le_trans (le_max_left a d) h₁, fun x hx => ?_⟩
      rcases List.mem_cons.mp hx with rfl | hx
      · exact le_trans (le_max_right a x) h₁
      · exact h₂ x hx

theorem runRecords_get_of_some (name : String) (recs : List (Rat × Bool × Rat)) :
    ∀ (metrics : List (String × CommandMetrics)) (m : CommandMetrics),
      dictGet? metrics name = some m →
      dictGet? (runRecords name metrics recs) name = some (runUpdates m recs) := by
  induction recs with
  | nil => intro metrics m h; exact h
  | cons r rest ih =>
      intro metrics m h
      obtain ⟨d, s, t⟩ := r
      simp only [runRecords, runUpdates]
      apply ih
      simp only [BotStatsService.record_command_execution, h, Option.getD_some]
      exact dictGet?_dictSet_self _ _ _

/-- Claim C8: starting from a metrics dictionary that has not seen the
command name, after recording N ≥ 1 executions with non-negative durations
d1..dN the per-command aggregate m satisfies execution_count = N,
total_execution_time = d1+...+dN, average_execution_time =
total_execution_time / N, min_execution_time = min(d1..dN) and
max_execution_time = max(d1..dN) (each stated as membership plus the
corresponding bound over all recorded durations), and
success_count + error_count = N. -/
theorem metrics_equations (name : String) (metrics0 : List (String × CommandMetrics))
    (recs : List (Rat × Bool × Rat))
    (h0 : dictGet? metrics0 name = none)
    (hne : recs ≠ [])
    (hpos : ∀ r ∈ recs, 0 ≤ r.1) :
    ∃ m, dictGet? (runRecords name metrics0 recs) name = some m ∧
      m.execution_count = recs.length ∧
      m.total_execution_time = (recs.map fun r => r.1).sum ∧
      m.average_execution_time = m.total_execution_time / (recs.length : Rat) ∧
      m.success_count + m.error_count = recs.length ∧
      (∃ dmin, m.min_execution_time = some dmin ∧ dmin ∈ (recs.map fun r => r.1) ∧
        ∀ d ∈ (recs.map fun r => r.1), dmin ≤ d) ∧
      m.max_execution_time ∈ (recs.map fun r => r.1) ∧
      (∀ d ∈ (recs.map fun r => r.1), d ≤ m.max_execution_time) := by
  cases hrecs : recs with
  | nil => exact absurd hrecs hne
  | cons r rest =>
      obtain ⟨d, s, t⟩ := r
      subst hrecs
      have hget : dictGet?
          (runRecords name metrics0 ((d, s, t) :: rest)) name
          = some (runUpdates { command_name := name } ((d, s, t) :: rest)) := by
        simp only [runRecords, runUpdates]
        apply runRecords_get_of_some
        simp only [BotStatsService.record_command_execution, h0, Option.getD_none]
        exact dictGet?_dictSet_self _ _ _
      refine ⟨runUpdates { command_name := name } ((d, s, t) :: rest), hget,
        ?_, ?_, ?_, ?_, ?_, ?_, ?_⟩
      · rw [runUpdates_execution_count]
        simp
      · rw [runUpdates_total]
        simp
      · rw [runUpdates_avg _ _ (by simp), runUpdates_execution_count,
          runUpdates_total]
        simp
      · rw [runUpdates_success_error]
        simp
      · rw [runUpdates_min]
        simp only [List.map_cons, List.foldl_cons]
        have hstep : (some (minInf ({ command_name := name }
            : CommandMetrics).min_execution_time d)) = some d := rfl
        rw [hstep, foldl_minInf_some]
        refine ⟨(rest.map fun r => r.1).foldl min d, rfl, ?_, ?_⟩
        · rcases foldl_min_mem (rest.map fun r => r.1) d with h | h
          · rw [h]; exact List.mem_cons_self _ _
          · exact List.mem_cons_of_mem _ h
        · intro x hx
          obtain ⟨h₁, h₂⟩ := foldl_min_le (rest.map fun r => r.1) d
          rcases List.mem_cons.mp hx with rfl | hx
          · exact h₁
          · exact h₂ x hx
      · rw [runUpdates_max]
        have hmax0 : ({ command_name := name } : CommandMetrics).max_execution_time
            = 0 := rfl
        rw [hmax0]
        have hbound := foldl_max_ge (((d, s, t) :: rest).map fun r => r.1) 0
        rcases foldl_max_mem (((d, s, t) :: rest).map fun r => r.1) 0 with h | h
        · have hd : d ∈ ((d, s, t) :: rest).map fun r => r.1 := by
            simp
          have hd0 : 0 ≤ d := hpos (d, s, t) (List.mem_cons_self _ _)
          have hdle : d ≤ 0 := by
            have h₂ := hbound.2 d hd
            rw [h] at h₂
            exact h₂
          have hd0eq : d = 0 := le_antisymm hdle hd0
          rw [h, ← hd0eq]
          exact hd
        · exact h
      · intro x hx
        rw [runUpdates_max]
        exact (foldl_max_ge _ _).2 x hx

/-- The four-execution record sequence of the spec scenario (durations
10, 20, 30, 40 ms; three successes, one failure). -/
def recs4 : List (Rat × Bool × Rat) :=
  [(10, true, 0), (20, true, 0), (30, true, 0), (40, false, 0)]

/-- Witness for the C8 theorem at the concrete four-record sequence. -/
theorem metrics_equations_witness :
    (dictGet? ([] : List (String × CommandMetrics)) "test" = none ∧
     recs4 ≠ [] ∧ ∀ r ∈ recs4, 0 ≤ r.1) ∧
    (∃ m, dictGet? (runRecords "test" [] recs4) "test" = some m ∧
      m.execution_count = recs4.length ∧
      m.total_execution_time = (recs4.map fun r => r.1).sum ∧
      m.average_execution_time = m.total_execution_time / (recs4.length : Rat) ∧
      m.success_count + m.error_count = recs4.length ∧
      (∃ dmin, m.min_execution_time = some dmin ∧ dmin ∈ (recs4.map fun r => r.1) ∧
        ∀ d ∈ (recs4.map fun r => r.1), dmin ≤ d) ∧
      m.max_execution_time ∈ (recs4.map fun r => r.1) ∧
      (∀ d ∈ (recs4.map fun r => r.1), d ≤ m.max_execution_time)) :=
  ⟨⟨rfl, by decide, by decide⟩,
   metrics_equations "test" [] recs4 rfl (by decide) (by decide)⟩

end SelfBot
